import Mathlib

/-!
Replay::getReplayData.

A shallow embedding of `Replay::getReplayData` (src/snippet.cc) and the
properties of the unread-suffix extraction built on the cursor-tracked
decompressed buffer.
-/

namespace Yrp

/-- A byte (`uint8_t`). -/
abbrev Byte := Fin 256

/-- The number of values of a `std::size_t` (64-bit unsigned). -/
def SIZE_MODULUS : Nat := 2 ^ 64

/-- Subtraction of two `std::size_t` values: the mathematical difference
reduced modulo `2 ^ 64`, as unsigned arithmetic in C++ computes it. -/
def sizeSub (a b : Nat) : Nat :=
  (((a : Int) - (b : Int)) % (SIZE_MODULUS : Int)).toNat

/-- A read-only pointer into a byte region: the region it points into and the
offset of the pointed-to byte from the start of the region. -/
structure BytePtr where
  region : List Byte
  offset : Nat
deriving DecidableEq, Repr

/-- Pointer arithmetic `p + n` on a 64-bit address: the offset from the start of
the region wraps modulo `2 ^ 64`. -/
def BytePtr.add (p : BytePtr) (n : Nat) : BytePtr :=
  { region := p.region, offset := (p.offset + n) % SIZE_MODULUS }

/-- The byte read at address `p + i`: the byte of the region at that offset, or
`none` when the address lies outside the region, where what is read is not
determined by the program. -/
def BytePtr.read (p : BytePtr) (i : Nat) : Option Byte :=
  (p.add i).region[(p.add i).offset]?

/-- Modelled from the spec: the class of `decompressedBuffer` is not part of
the source; the spec gives it an owned byte sequence `storage` of fixed length
and a read offset `cursor` into it. -/
structure CursorBuffer where
  storage : List Byte
  cursor : Nat
deriving DecidableEq, Repr

/-- Modelled from the spec: `size()` is the total byte length of `storage`. -/
def CursorBuffer.size (b : CursorBuffer) : Nat := b.storage.length

/-- Modelled from the spec: `getCursor()` is the current read offset. -/
def CursorBuffer.getCursor (b : CursorBuffer) : Nat := b.cursor

/-- Modelled from the spec: `data()` is a read-only pointer to the first byte
of `storage`. -/
def CursorBuffer.data (b : CursorBuffer) : BytePtr :=
  { region := b.storage, offset := 0 }

/-- The cursor invariant of the data model: `0 <= cursor <= length(storage)`. -/
def CursorBuffer.Invariant (b : CursorBuffer) : Prop :=
  b.cursor ≤ b.storage.length

/-- Both `size()` and `getCursor()` are values of type `std::size_t`. -/
def CursorBuffer.Representable (b : CursorBuffer) : Prop :=
  b.storage.length < SIZE_MODULUS ∧ b.cursor < SIZE_MODULUS

instance (b : CursorBuffer) : Decidable b.Invariant :=
  inferInstanceAs (Decidable (b.cursor ≤ b.storage.length))

instance (b : CursorBuffer) : Decidable b.Representable :=
  inferInstanceAs (Decidable (b.storage.length < SIZE_MODULUS ∧ b.cursor < SIZE_MODULUS))

/-- The extractor: `decompressedBuffer` is a possibly null pointer to the
buffer it owns. -/
structure Replay where
  decompressedBuffer : Option CursorBuffer
deriving DecidableEq, Repr

/-- The extractor invariant: if a buffer is held, the cursor invariant holds
and its size and cursor are `std::size_t` values. -/
def Replay.Invariant (r : Replay) : Prop :=
  ∀ b, r.decompressedBuffer = some b → b.Invariant ∧ b.Representable

/-- The value handed to the host: `env.Null()` or a `Napi::Buffer<uint8_t>`
holding its own bytes. -/
inductive Value where
  | Null
  | Buffer (bytes : List Byte)
deriving DecidableEq, Repr

/-- A copy of `length` bytes from `offset` bytes into a region that read outside
the region: `read` holds, for each position of the copied range in order, the
byte of the region it took, or `none` for a byte taken from outside it. -/
structure OutOfRange where
  offset : Nat
  length : Nat
  read : List (Option Byte)
deriving DecidableEq, Repr

/-- The library call `Napi::Buffer<uint8_t>::Copy(env, p, length)`: allocates a
new buffer and copies into it the `length` bytes at the addresses `p`, `p + 1`,
..., `p + (length - 1)`. When every one of them lies in the region `p` points
into, the result is the buffer of those bytes. Otherwise the buffer holds
bytes from outside the region, which the program does not determine; that
outcome is reported as `OutOfRange` with the range asked for and what each
position read. -/
def Buffer.Copy (p : BytePtr) (length : Nat) : Except OutOfRange Value :=
  let read := (List.range length).map p.read
  if read.all Option.isSome then
    .ok (Value.Buffer (read.filterMap id))
  else
    .error { offset := p.offset, length := length, read := read }

/-- The method `Replay::getReplayData` of src/snippet.cc, as a computation
over the extractor state `this`. -/
def getReplayData : ExceptT OutOfRange (StateM Replay) Value := do
  let this ← get
  match this.decompressedBuffer with
  | none => return Value.Null
  | some decompressedBuffer =>
    -- Get remaining data from current cursor position to end of buffer
    let remainingSize := sizeSub decompressedBuffer.size decompressedBuffer.getCursor
    if remainingSize = 0 then
      return Value.Null
    else
      -- Create a new Node.js Buffer with the remaining data
      let buffer ← liftExcept
        (Buffer.Copy (decompressedBuffer.data.add decompressedBuffer.getCursor) remainingSize)
      return buffer

/-- One call of `getReplayData` on the extractor state `this`: the outcome of
the call and the extractor state after it. -/
def Replay.call (this : Replay) : Except OutOfRange Value × Replay :=
  (getReplayData.run).run this

deriving instance DecidableEq for Except

/-- The tail relation between outcomes at successive cursor positions, as the
claim about them words it: the value with its first `k` bytes dropped, where
dropping every byte of a byte sequence yields no-data and no-data stays
no-data. -/
def Value.dropFirst (k : Nat) : Value → Value
  | Value.Null => Value.Null
  | Value.Buffer bytes =>
    if bytes.drop k = [] then Value.Null else Value.Buffer (bytes.drop k)

/-! ## Unsigned subtraction -/

theorem sizeSub_self (a : Nat) : sizeSub a a = 0 := by
  simp [sizeSub]

theorem sizeSub_of_le {a b : Nat} (hle : b ≤ a) (ha : a < SIZE_MODULUS) :
    sizeSub a b = a - b := by
  unfold sizeSub
  have h0 : (0 : Int) ≤ (a : Int) - (b : Int) := by omega
  have h1 : (a : Int) - (b : Int) < (SIZE_MODULUS : Int) := by omega
  rw [Int.emod_eq_of_lt h0 h1]
  omega

theorem read_eq_getElem_opt (p : BytePtr) (i : Nat)
    (hin : p.offset + i < SIZE_MODULUS) :
    p.read i = p.region[p.offset + i]? := by
  simp only [BytePtr.read, BytePtr.add]
  rw [Nat.mod_eq_of_lt hin]

theorem read_list_in_range (p : BytePtr) (length : Nat)
    (hfit : p.offset + length ≤ p.region.length) (hlen : p.region.length ≤ SIZE_MODULUS) :
    (List.range length).map p.read
      = ((p.region.drop p.offset).take length).map some := by
  apply List.ext_getElem?
  intro i
  by_cases hi : i < length
  · have hin : p.offset + i < p.region.length := by omega
    rw [List.getElem?_map, List.getElem?_range hi, List.getElem?_map, List.getElem?_take_of_lt hi,
      List.getElem?_drop]
    simp only [Option.map_some']
    rw [read_eq_getElem_opt p i (by omega), List.getElem?_eq_getElem hin]
    rfl
  · rw [List.getElem?_eq_none (by simp; omega), List.getElem?_eq_none (by simp; omega)]

theorem copy_in_range (p : BytePtr) (length : Nat)
    (hfit : p.offset + length ≤ p.region.length) (hlen : p.region.length ≤ SIZE_MODULUS) :
    Buffer.Copy p length
      = Except.ok (Value.Buffer ((p.region.drop p.offset).take length)) := by
  have hall : ∀ l : List Byte, (l.map some).all Option.isSome = true := by
    intro l
    simp
  have hfilter : ∀ l : List Byte, (l.map some).filterMap id = l := by
    intro l
    simp
  unfold Buffer.Copy
  simp only [read_list_in_range p length hfit hlen]
  rw [if_pos (hall _), hfilter]

theorem call_none :
    Replay.call { decompressedBuffer := none } =
      (Except.ok Value.Null, { decompressedBuffer := none }) := rfl

theorem call_some (b : CursorBuffer) :
    Replay.call { decompressedBuffer := some b } =
      (if sizeSub b.size b.getCursor = 0 then Except.ok Value.Null
       else Buffer.Copy (b.data.add b.getCursor) (sizeSub b.size b.getCursor),
       { decompressedBuffer := some b }) := by
  by_cases h : sizeSub b.size b.getCursor = 0
  · simp [Replay.call, getReplayData, h, ExceptT.run, StateT.run, bind, ExceptT.bind,
      ExceptT.mk, StateT.bind, get, getThe, MonadStateOf.get, liftM, monadLift,
      MonadLift.monadLift, ExceptT.lift, StateT.get, pure, StateT.pure, ExceptT.pure,
      ExceptT.bindCont, StateT.map, Functor.map]
  · cases hc : Buffer.Copy (b.data.add b.getCursor) (sizeSub b.size b.getCursor) <;>
    simp [Replay.call, getReplayData, h, hc, ExceptT.run, StateT.run, bind, ExceptT.bind,
      ExceptT.mk, StateT.bind, get, getThe, MonadStateOf.get, liftM, monadLift,
      MonadLift.monadLift, ExceptT.lift, StateT.get, pure, StateT.pure, ExceptT.pure,
      ExceptT.bindCont, liftExcept, throw, throwThe, MonadExceptOf.throw, StateT.map,
      Functor.map]

theorem call_state (r : Replay) : (Replay.call r).2 = r := by
  rcases r with ⟨_ | b⟩
  · rfl
  · rw [call_some]

/-- With the cursor inside the buffer and a representable size, the outcome is
no-data at the end of the buffer and the dropped storage otherwise. -/
theorem call_of_invariant (b : CursorBuffer) (hinv : b.Invariant)
    (hsz : b.size < SIZE_MODULUS) :
    (Replay.call { decompressedBuffer := some b }).1 =
      if b.cursor = b.size then Except.ok Value.Null
      else Except.ok (Value.Buffer (b.storage.drop b.cursor)) := by
  have hle : b.cursor ≤ b.storage.length := hinv
  have hsub : sizeSub b.size b.getCursor = b.storage.length - b.cursor :=
    sizeSub_of_le hle hsz
  rw [call_some, hsub]
  by_cases hc : b.cursor = b.size
  · have : b.storage.length - b.cursor = 0 := by
      simp only [CursorBuffer.size] at hc; omega
    simp only [if_pos this, if_pos hc]
  · have hne : b.storage.length - b.cursor ≠ 0 := by
      simp only [CursorBuffer.size] at hc; omega
    have hfit : b.cursor + (b.storage.length - b.cursor) ≤ b.storage.length := by omega
    have htake : List.take (b.storage.length - b.cursor) (List.drop b.cursor b.storage)
        = List.drop b.cursor b.storage := by
      apply List.take_of_length_le
      simp
    have hoff : (b.data.add b.getCursor).offset = b.cursor := by
      simp only [BytePtr.add, CursorBuffer.data, CursorBuffer.getCursor, Nat.zero_add]
      exact Nat.mod_eq_of_lt (Nat.lt_of_le_of_lt hle hsz)
    have hcopy := copy_in_range (b.data.add b.getCursor) (b.storage.length - b.cursor)
      (by rw [hoff]; exact hfit) (Nat.le_of_lt hsz)
    simp only [if_neg hne, if_neg hc]
    rw [hcopy, hoff]
    show Except.ok (Value.Buffer (List.take _ (List.drop b.cursor b.storage))) = _
    rw [htake]

/-! ## The contract of `getReplayData` -/

/-- C1: for a held buffer with `cursor < size` (a `std::size_t` value), the call
returns a byte sequence, not no-data; it has exactly `size - cursor` bytes, its
`i`-th byte is `storage[cursor + i]` for every `i < size - cursor`, and it is
the slice `storage[cursor:size]`. -/
theorem getReplayData_returns_unread_suffix (b : CursorBuffer)
    (hlt : b.cursor < b.size) (hsz : b.size < SIZE_MODULUS) :
    ∃ bytes : List Byte,
      (Replay.call { decompressedBuffer := some b }).1 = Except.ok (Value.Buffer bytes) ∧
      bytes.length = b.size - b.cursor ∧
      (∀ i, i < b.size - b.cursor → ∃ x, bytes[i]? = some x ∧ b.storage[b.cursor + i]? = some x) ∧
      bytes = List.drop b.cursor (List.take b.size b.storage) := by
  have hinv : b.Invariant := Nat.le_of_lt hlt
  refine ⟨b.storage.drop b.cursor, ?_, ?_, ?_, ?_⟩
  · rw [call_of_invariant b hinv hsz, if_neg (Nat.ne_of_lt hlt)]
  · simp [CursorBuffer.size]
  · intro i hi
    have hin : b.cursor + i < b.storage.length := by
      simp only [CursorBuffer.size] at hi; omega
    refine ⟨b.storage[b.cursor + i], ?_, ?_⟩
    · rw [List.getElem?_drop]
      exact List.getElem?_eq_getElem hin
    · exact List.getElem?_eq_getElem hin
  · simp [CursorBuffer.size]

/-- The scenario of C1: storage `[0x01,0x02,0x03,0x04,0x05]` with cursor 2
gives the bytes `[0x03,0x04,0x05]`. -/
theorem getReplayData_returns_unread_suffix_witness :
    (2 < CursorBuffer.size { storage := [0x01, 0x02, 0x03, 0x04, 0x05], cursor := 2 }) ∧
    (CursorBuffer.size { storage := [0x01, 0x02, 0x03, 0x04, 0x05], cursor := 2 }
      < SIZE_MODULUS) ∧
    (Replay.call
      { decompressedBuffer := some { storage := [0x01, 0x02, 0x03, 0x04, 0x05], cursor := 2 } }).1
      = Except.ok (Value.Buffer [0x03, 0x04, 0x05]) := by
  refine ⟨by decide, by decide, ?_⟩
  obtain ⟨bytes, hres, _, _, hslice⟩ :=
    getReplayData_returns_unread_suffix
      { storage := [0x01, 0x02, 0x03, 0x04, 0x05], cursor := 2 } (by decide) (by decide)
  rw [hres, hslice]
  rfl

/-- C2: when no buffer is held, the call returns the no-data value: it is not
an error, and there is no size or cursor for it to read. The extractor still
holds no buffer afterwards. -/
theorem getReplayData_no_buffer :
    Replay.call { decompressedBuffer := none } =
      (Except.ok Value.Null, { decompressedBuffer := none }) :=
  call_none

/-- C3: for a held buffer with `cursor = size` (the empty buffer included), the
call returns no-data, the very value returned when no buffer is held. -/
theorem getReplayData_fully_consumed (b : CursorBuffer) (hfull : b.cursor = b.size) :
    (Replay.call { decompressedBuffer := some b }).1 = Except.ok Value.Null ∧
    (Replay.call { decompressedBuffer := some b }).1 =
      (Replay.call { decompressedBuffer := none }).1 := by
  have hzero : sizeSub b.size b.getCursor = 0 := by
    rw [CursorBuffer.getCursor, hfull]
    exact sizeSub_self b.size
  have hnull : (Replay.call { decompressedBuffer := some b }).1 = Except.ok Value.Null := by
    rw [call_some]
    simp only [if_pos hzero]
  exact ⟨hnull, by rw [hnull, call_none]⟩

/-- The scenarios of C3: storage `[0xAA]` with cursor 1 gives no-data, the same
value as with no buffer held. -/
theorem getReplayData_fully_consumed_witness :
    (CursorBuffer.cursor { storage := [0xAA], cursor := 1 }
      = CursorBuffer.size { storage := [0xAA], cursor := 1 }) ∧
    (Replay.call { decompressedBuffer := some { storage := [0xAA], cursor := 1 } }).1
      = Except.ok Value.Null ∧
    (Replay.call { decompressedBuffer := some { storage := [0xAA], cursor := 1 } }).1
      = (Replay.call { decompressedBuffer := none }).1 :=
  ⟨by decide, getReplayData_fully_consumed { storage := [0xAA], cursor := 1 } (by decide)⟩

/-- C4: a call leaves the extractor state as it was: the buffer is absent or
present as before, and `getCursor()`, `size()` and every byte of `storage` are
unchanged. This holds for every state, whatever the outcome of the call. -/
theorem getReplayData_preserves_state (r : Replay) :
    (Replay.call r).2 = r ∧
    (Replay.call r).2.decompressedBuffer.isSome = r.decompressedBuffer.isSome ∧
    (Replay.call r).2.decompressedBuffer.map CursorBuffer.getCursor
      = r.decompressedBuffer.map CursorBuffer.getCursor ∧
    (Replay.call r).2.decompressedBuffer.map CursorBuffer.size
      = r.decompressedBuffer.map CursorBuffer.size ∧
    (Replay.call r).2.decompressedBuffer.map CursorBuffer.storage
      = r.decompressedBuffer.map CursorBuffer.storage := by
  rw [call_state]
  exact ⟨rfl, rfl, rfl, rfl, rfl⟩

/-- Under the extractor invariant the outcome of a call is a value, never an
out-of-range read. -/
theorem call_ok_of_invariant (r : Replay) (hinv : r.Invariant) :
    (Replay.call r).1 = Except.ok Value.Null ∨
    ∃ bytes, (Replay.call r).1 = Except.ok (Value.Buffer bytes) := by
  rcases r with ⟨_ | b⟩
  · exact Or.inl (by rw [call_none])
  · obtain ⟨hb, hrep⟩ := hinv b rfl
    rw [call_of_invariant b hb hrep.1]
    by_cases hc : b.cursor = b.size
    · exact Or.inl (by rw [if_pos hc])
    · exact Or.inr ⟨_, by rw [if_neg hc]⟩

/-- C5: two calls in succession, the second on the state the first leaves,
give equal outcomes; in a state satisfying the extractor invariant both are
no-data, or both are byte sequences of the same length with equal bytes at
every index. -/
theorem getReplayData_twice_same_content (r : Replay) :
    (Replay.call r).1 = (Replay.call (Replay.call r).2).1 ∧
    (r.Invariant →
      ((Replay.call r).1 = Except.ok Value.Null ∧
        (Replay.call (Replay.call r).2).1 = Except.ok Value.Null) ∨
      ∃ first second : List Byte,
        (Replay.call r).1 = Except.ok (Value.Buffer first) ∧
        (Replay.call (Replay.call r).2).1 = Except.ok (Value.Buffer second) ∧
        first.length = second.length ∧
        ∀ i, i < first.length → ∃ x, first[i]? = some x ∧ second[i]? = some x) := by
  rw [call_state]
  refine ⟨rfl, fun hinv => ?_⟩
  rcases call_ok_of_invariant r hinv with h | ⟨bytes, h⟩
  · exact Or.inl ⟨h, h⟩
  · refine Or.inr ⟨bytes, bytes, h, h, rfl, fun i hi => ⟨bytes[i], ?_, ?_⟩⟩ <;>
    exact List.getElem?_eq_getElem hi

/-- An instance of C5: storage `[0x01,0x02,0x03]` with cursor 1 satisfies the
invariant; two calls in succession both give the bytes `[0x02,0x03]`. -/
theorem getReplayData_twice_same_content_witness :
    Replay.Invariant
      { decompressedBuffer := some { storage := [0x01, 0x02, 0x03], cursor := 1 } } ∧
    (Replay.call { decompressedBuffer := some { storage := [0x01, 0x02, 0x03], cursor := 1 } }).1
      = Except.ok (Value.Buffer [0x02, 0x03]) ∧
    (Replay.call (Replay.call
      { decompressedBuffer := some { storage := [0x01, 0x02, 0x03], cursor := 1 } }).2).1
      = Except.ok (Value.Buffer [0x02, 0x03]) := by
  have hinv : Replay.Invariant
      { decompressedBuffer := some { storage := [0x01, 0x02, 0x03], cursor := 1 } } := by
    intro b hb
    cases hb
    exact ⟨by decide, by decide⟩
  have hfirst : (Replay.call
      { decompressedBuffer := some { storage := [0x01, 0x02, 0x03], cursor := 1 } }).1
      = Except.ok (Value.Buffer [0x02, 0x03]) := by decide
  refine ⟨hinv, hfirst, ?_⟩
  rcases (getReplayData_twice_same_content _).2 hinv with ⟨hnull, _⟩ | ⟨first, second, h1, h2, hlen, hbytes⟩
  · rw [hfirst] at hnull
    cases hnull
  · rw [hfirst] at h1
    cases h1
    rw [h2]
    congr 2
    apply List.ext_getElem?
    intro i
    by_cases hi : i < 2
    · obtain ⟨x, hx1, hx2⟩ := hbytes i hi
      rw [hx2, ← hx1]
    · have hl : second.length = 2 := hlen.symm
      rw [List.getElem?_eq_none (by omega), List.getElem?_eq_none (by simp; omega)]

/-- C6: in a state satisfying the extractor invariant (no buffer, or
`cursor <= size = length(storage)` with `size` a `std::size_t` value) the call
signals no error: its outcome is no-data or a byte sequence; and for a held
buffer the unsigned subtraction equals the mathematical difference
`size - cursor`, and the copied range `[cursor, cursor + remaining)` ends
exactly at `size`, inside the storage that `data()` points into. -/
theorem getReplayData_no_error (r : Replay) (hinv : r.Invariant) :
    ((Replay.call r).1 = Except.ok Value.Null ∨
      ∃ bytes, (Replay.call r).1 = Except.ok (Value.Buffer bytes)) ∧
    ∀ b, r.decompressedBuffer = some b →
      ((sizeSub b.size b.getCursor : Nat) : Int) = (b.size : Int) - (b.getCursor : Int) ∧
      b.getCursor + sizeSub b.size b.getCursor = b.size ∧
      (b.data.add b.getCursor).offset + sizeSub b.size b.getCursor
        = (b.data.add b.getCursor).region.length ∧
      (b.data.add b.getCursor).region = b.storage := by
  refine ⟨call_ok_of_invariant r hinv, fun b hb => ?_⟩
  obtain ⟨hle, hrep⟩ := hinv b hb
  have hle2 : b.cursor ≤ b.storage.length := hle
  have hsub : sizeSub b.size b.getCursor = b.storage.length - b.cursor :=
    sizeSub_of_le hle hrep.1
  have hoff : (b.data.add b.getCursor).offset = b.cursor := by
    simp only [BytePtr.add, CursorBuffer.data, CursorBuffer.getCursor, Nat.zero_add]
    exact Nat.mod_eq_of_lt hrep.2
  have hreg : (b.data.add b.getCursor).region = b.storage := rfl
  rw [hsub, hoff, hreg]
  simp only [CursorBuffer.size, CursorBuffer.getCursor]
  refine ⟨by omega, by omega, by omega, trivial⟩

/-- An instance of C6: storage `[0x01,0x02,0x03]` with cursor 1 satisfies the
invariant, and the call gives a value. -/
theorem getReplayData_no_error_witness :
    Replay.Invariant
      { decompressedBuffer := some { storage := [0x01, 0x02, 0x03], cursor := 1 } } ∧
    ((Replay.call
        { decompressedBuffer := some { storage := [0x01, 0x02, 0x03], cursor := 1 } }).1
        = Except.ok Value.Null ∨
      ∃ bytes, (Replay.call
        { decompressedBuffer := some { storage := [0x01, 0x02, 0x03], cursor := 1 } }).1
        = Except.ok (Value.Buffer bytes)) := by
  have hinv : Replay.Invariant
      { decompressedBuffer := some { storage := [0x01, 0x02, 0x03], cursor := 1 } } := by
    intro b hb
    cases hb
    exact ⟨by decide, by decide⟩
  exact ⟨hinv, (getReplayData_no_error _ hinv).1⟩

/-! ## Outside the cursor invariant -/

/-- C9: in a state satisfying the extractor invariant the call never returns
an empty byte sequence: a returned byte sequence comes from a held buffer and
its length `n` satisfies `1 <= n <= size`; a held buffer with nothing left
after the cursor gives no-data instead. -/
theorem getReplayData_never_empty (r : Replay) (hinv : r.Invariant) :
    (Replay.call r).1 ≠ Except.ok (Value.Buffer []) ∧
    (∀ bytes, (Replay.call r).1 = Except.ok (Value.Buffer bytes) →
      ∃ b, r.decompressedBuffer = some b ∧ 1 ≤ bytes.length ∧ bytes.length ≤ b.size) ∧
    (∀ b, r.decompressedBuffer = some b → b.size - b.cursor = 0 →
      (Replay.call r).1 = Except.ok Value.Null) := by
  have hlen : ∀ bytes, (Replay.call r).1 = Except.ok (Value.Buffer bytes) →
      ∃ b, r.decompressedBuffer = some b ∧ 1 ≤ bytes.length ∧ bytes.length ≤ b.size := by
    intro bytes hres
    rcases r with ⟨_ | b⟩
    · rw [call_none] at hres
      cases hres
    · obtain ⟨hb, hrep⟩ := hinv b rfl
      have hle : b.cursor ≤ b.storage.length := hb
      rw [call_of_invariant b hb hrep.1] at hres
      by_cases hc : b.cursor = b.size
      · rw [if_pos hc] at hres
        cases hres
      · rw [if_neg hc] at hres
        cases hres
        refine ⟨b, rfl, ?_, ?_⟩ <;>
        · simp only [CursorBuffer.size, List.length_drop] at hc ⊢
          omega
  refine ⟨fun hempty => ?_, hlen, fun b hb hzero => ?_⟩
  · obtain ⟨_, _, hpos, _⟩ := hlen [] hempty
    simp at hpos
  · obtain ⟨hinvb, hrep⟩ := hinv b hb
    have hle : b.cursor ≤ b.storage.length := hinvb
    have hr : r = { decompressedBuffer := some b } := by
      cases r
      simp only at hb
      rw [hb]
    rw [hr, call_of_invariant b hinvb hrep.1, if_pos]
    simp only [CursorBuffer.size] at hzero ⊢
    omega

/-- An instance of C9: storage `[0x01,0x02,0x03]` with cursor 1 gives the byte
sequence `[0x02,0x03]`, of length 2 with `1 <= 2 <= 3`. -/
theorem getReplayData_never_empty_witness :
    Replay.Invariant
      { decompressedBuffer := some { storage := [0x01, 0x02, 0x03], cursor := 1 } } ∧
    (Replay.call
      { decompressedBuffer := some { storage := [0x01, 0x02, 0x03], cursor := 1 } }).1
      = Except.ok (Value.Buffer [0x02, 0x03]) ∧
    ∃ b : CursorBuffer,
      some ({ storage := [0x01, 0x02, 0x03], cursor := 1 } : CursorBuffer) = some b ∧
      1 ≤ List.length [(0x02 : Byte), 0x03] ∧ List.length [(0x02 : Byte), 0x03] ≤ b.size := by
  have hinv : Replay.Invariant
      { decompressedBuffer := some { storage := [0x01, 0x02, 0x03], cursor := 1 } } := by
    intro b hb
    cases hb
    exact ⟨by decide, by decide⟩
  exact ⟨hinv, by decide,
    (getReplayData_never_empty _ hinv).2.1 [0x02, 0x03] (by decide)⟩

/-- C10: the outcome depends only on the unread suffix: two held buffers, each
satisfying the cursor invariant with a `std::size_t` size, whose slices
`storage[cursor:size]` are equal, give equal outcomes, whatever their sizes,
cursors and already-consumed bytes `storage[0:cursor]`. -/
theorem getReplayData_depends_only_on_suffix (b₁ b₂ : CursorBuffer)
    (hinv₁ : b₁.Invariant) (hsz₁ : b₁.size < SIZE_MODULUS)
    (hinv₂ : b₂.Invariant) (hsz₂ : b₂.size < SIZE_MODULUS)
    (hsuffix : List.drop b₁.cursor (List.take b₁.size b₁.storage)
      = List.drop b₂.cursor (List.take b₂.size b₂.storage)) :
    (Replay.call { decompressedBuffer := some b₁ }).1
      = (Replay.call { decompressedBuffer := some b₂ }).1 := by
  have hle₁ : b₁.cursor ≤ b₁.storage.length := hinv₁
  have hle₂ : b₂.cursor ≤ b₂.storage.length := hinv₂
  simp only [CursorBuffer.size, List.take_length] at hsuffix
  have hlen : b₁.storage.length - b₁.cursor = b₂.storage.length - b₂.cursor := by
    have := congrArg List.length hsuffix
    simpa using this
  rw [call_of_invariant b₁ hinv₁ hsz₁, call_of_invariant b₂ hinv₂ hsz₂, hsuffix]
  by_cases hc : b₁.cursor = b₁.size
  · have hc₂ : b₂.cursor = b₂.size := by
      simp only [CursorBuffer.size] at hc ⊢
      omega
    rw [if_pos hc, if_pos hc₂]
  · have hc₂ : ¬ b₂.cursor = b₂.size := by
      simp only [CursorBuffer.size] at hc ⊢
      omega
    rw [if_neg hc, if_neg hc₂]

/-- An instance of C10: `[0x09,0x09,0x01,0x02]` at cursor 2 and
`[0x07,0x01,0x02]` at cursor 1 have the same unread suffix and the same
outcome. -/
theorem getReplayData_depends_only_on_suffix_witness :
    (Replay.call { decompressedBuffer := some { storage := [0x09, 0x09, 0x01, 0x02], cursor := 2 } }).1
      = (Replay.call { decompressedBuffer := some { storage := [0x07, 0x01, 0x02], cursor := 1 } }).1 :=
  getReplayData_depends_only_on_suffix
    { storage := [0x09, 0x09, 0x01, 0x02], cursor := 2 } { storage := [0x07, 0x01, 0x02], cursor := 1 }
    (by decide) (by decide) (by decide) (by decide) (by decide)

/-! ## Successive cursor positions -/

/-- C11: results at successive cursor positions are tails of one another. For
a held buffer with cursor `c`, a `std::size_t` size and `c + k <= size`, the
call with the cursor advanced to `c + k` over the same storage gives the
outcome at `c` with its first `k` bytes dropped: both outcomes are values; if
`c + k < size` they are the byte sequences `bytes` and `bytes` without its
first `k` bytes, and if `c + k = size` the outcome at `c + k` is no-data while
the outcome at `c` is no-data for `k = 0` and otherwise a sequence of exactly
`k` bytes, all of them dropped. -/
theorem getReplayData_successive_cursors (b : CursorBuffer) (k : Nat)
    (hk : b.cursor + k ≤ b.size) (hsz : b.size < SIZE_MODULUS) :
    (∃ v, (Replay.call { decompressedBuffer := some b }).1 = Except.ok v ∧
      (Replay.call
        { decompressedBuffer := some { storage := b.storage, cursor := b.cursor + k } }).1
        = Except.ok (Value.dropFirst k v)) ∧
    (b.cursor + k < b.size →
      ∃ bytes, (Replay.call { decompressedBuffer := some b }).1 = Except.ok (Value.Buffer bytes) ∧
        bytes.drop k ≠ [] ∧
        (Replay.call
          { decompressedBuffer := some { storage := b.storage, cursor := b.cursor + k } }).1
          = Except.ok (Value.Buffer (bytes.drop k))) ∧
    (b.cursor + k = b.size →
      (Replay.call
        { decompressedBuffer := some { storage := b.storage, cursor := b.cursor + k } }).1
        = Except.ok Value.Null ∧
      ((k = 0 ∧ (Replay.call { decompressedBuffer := some b }).1 = Except.ok Value.Null) ∨
        ∃ bytes, (Replay.call { decompressedBuffer := some b }).1
            = Except.ok (Value.Buffer bytes) ∧
          bytes.length = k ∧ bytes.drop k = [])) := by
  have hk2 : b.cursor + k ≤ b.storage.length := hk
  have hinv : b.Invariant := Nat.le_trans (Nat.le_add_right _ _) hk2
  have hinvk : CursorBuffer.Invariant { storage := b.storage, cursor := b.cursor + k } := hk2
  have hat : (Replay.call { decompressedBuffer := some b }).1 =
      if b.cursor = b.size then Except.ok Value.Null
      else Except.ok (Value.Buffer (b.storage.drop b.cursor)) :=
    call_of_invariant b hinv hsz
  have hatk : (Replay.call
      { decompressedBuffer := some { storage := b.storage, cursor := b.cursor + k } }).1 =
      if b.cursor + k = b.size then Except.ok Value.Null
      else Except.ok (Value.Buffer (b.storage.drop (b.cursor + k))) :=
    call_of_invariant { storage := b.storage, cursor := b.cursor + k } hinvk hsz
  have hdrop : List.drop k (List.drop b.cursor b.storage) = List.drop (b.cursor + k) b.storage := by
    rw [List.drop_drop, Nat.add_comm]
  have hnil : List.drop (b.cursor + k) b.storage = [] ↔ b.cursor + k = b.size := by
    rw [List.drop_eq_nil_iff]
    simp only [CursorBuffer.size]
    omega
  refine ⟨?_, fun hlt => ?_, fun heq => ?_⟩
  · by_cases hc : b.cursor = b.size
    · have hk0 : b.cursor + k = b.size := by
        simp only [CursorBuffer.size] at hc ⊢
        omega
      exact ⟨Value.Null, by rw [hat, if_pos hc], by rw [hatk, if_pos hk0]; rfl⟩
    · refine ⟨Value.Buffer (b.storage.drop b.cursor), by rw [hat, if_neg hc], ?_⟩
      rw [hatk]
      simp only [Value.dropFirst, hdrop]
      by_cases hck : b.cursor + k = b.size
      · rw [if_pos hck, if_pos (hnil.mpr hck)]
      · rw [if_neg hck, if_neg (fun h => hck (hnil.mp h))]
  · have hc : ¬ b.cursor = b.size := by omega
    have hck : ¬ b.cursor + k = b.size := by omega
    refine ⟨b.storage.drop b.cursor, by rw [hat, if_neg hc], ?_, ?_⟩
    · rw [hdrop]
      exact fun h => hck (hnil.mp h)
    · rw [hatk, if_neg hck, hdrop]
  · refine ⟨by rw [hatk, if_pos heq], ?_⟩
    by_cases hk0 : k = 0
    · refine Or.inl ⟨hk0, ?_⟩
      have hc : b.cursor = b.size := by omega
      rw [hat, if_pos hc]
    · have hc : ¬ b.cursor = b.size := by omega
      refine Or.inr ⟨b.storage.drop b.cursor, by rw [hat, if_neg hc], ?_, ?_⟩
      · simp only [List.length_drop]
        simp only [CursorBuffer.size] at heq
        omega
      · rw [hdrop]
        exact hnil.mpr heq

/-- An instance of C11: on storage `[0x01,0x02,0x03,0x04,0x05]` the call at
cursor 1 gives `[0x02,0x03,0x04,0x05]` and, with the cursor advanced by 2, the
call at cursor 3 gives `[0x04,0x05]`. -/
theorem getReplayData_successive_cursors_witness :
    (CursorBuffer.cursor { storage := [0x01, 0x02, 0x03, 0x04, 0x05], cursor := 1 } + 2
      < CursorBuffer.size { storage := [0x01, 0x02, 0x03, 0x04, 0x05], cursor := 1 }) ∧
    (CursorBuffer.size { storage := [0x01, 0x02, 0x03, 0x04, 0x05], cursor := 1 }
      < SIZE_MODULUS) ∧
    ∃ bytes,
      (Replay.call
        { decompressedBuffer := some { storage := [0x01, 0x02, 0x03, 0x04, 0x05], cursor := 1 } }).1
        = Except.ok (Value.Buffer bytes) ∧
      bytes.drop 2 ≠ [] ∧
      (Replay.call
        { decompressedBuffer :=
            some { storage := [0x01, 0x02, 0x03, 0x04, 0x05], cursor := 1 + 2 } }).1
        = Except.ok (Value.Buffer (bytes.drop 2)) :=
  ⟨by decide, by decide,
    (getReplayData_successive_cursors
      { storage := [0x01, 0x02, 0x03, 0x04, 0x05], cursor := 1 } 2
      (by decide) (by decide)).2.1 (by decide)⟩

end Yrp
